import Mathlib

/-!
Verification development for the sb_todo list core
(custom_components/sb_todo/entity.py).

The Python source is shallowly embedded below:
* machine state (`ListState`) carries the in-memory item list, the display
  name and the persisted file content;
* every `async_*` coroutine becomes a pure function from state to
  state plus an ordered list of externally visible events
  (`Event.saved`, `Event.notified`);
* Python truthiness on optional fields is modelled explicitly
  (`optStrTruthy`, `optBoolTruthy`, `optRatTruthy`);
* `datetime` instants are epoch timestamps in `ℚ`; `dateutil.relativedelta`
  month and year offsets are modelled by proleptic-Gregorian civil-calendar
  arithmetic (conversions follow the standard days-from-civil algorithm);
  the process-local timezone is taken to be UTC.
-/

namespace SbTodo

/-- Status constant TodoItemStatus.NEEDS_ACTION (a string in the source). -/
def NEEDS_ACTION : String := "needs_action"

/-- Status constant TodoItemStatus.COMPLETED (a string in the source). -/
def COMPLETED : String := "completed"

/-- Python truthiness of an optional string: None and "" are falsy. -/
def optStrTruthy : Option String → Bool
  | none => false
  | some s => !(s == "")

/-- Python truthiness of an optional bool: None and False are falsy. -/
def optBoolTruthy : Option Bool → Bool
  | none => false
  | some b => b

/-- Python truthiness of an optional number: None and 0 are falsy. -/
def optRatTruthy : Option ℚ → Bool
  | none => false
  | some q => !(q == 0)

/-- Dataclass TodoItem from entity.py.  due_datetime is kept as the numeric
epoch timestamp the source persists and computes with. -/
structure TodoItem where
  uid : Option String
  summary : String
  status : String
  due_date : Option String
  due_datetime : Option ℚ
  description : Option String
  requiring : Option Bool
  period : Option String
deriving DecidableEq

/-- Serialized form of one item as written by TodoItem.to_dict (all eight
keys always present; datetime values already numeric in this model). -/
structure ItemDict where
  uid : Option String
  summary : String
  status : String
  due_date : Option String
  due_datetime : Option ℚ
  description : Option String
  requiring : Option Bool
  period : Option String
deriving DecidableEq

/-- TodoItem.to_dict. -/
def to_dict (it : TodoItem) : ItemDict :=
  ⟨it.uid, it.summary, it.status, it.due_date, it.due_datetime,
   it.description, it.requiring, it.period⟩

/-- TodoItem.from_dict.  On a dict produced by to_dict every get finds its
key, so the defaults do not fire. -/
def from_dict (d : ItemDict) : TodoItem :=
  ⟨d.uid, d.summary, d.status, d.due_date, d.due_datetime,
   d.description, d.requiring, d.period⟩

/-- Result of _parse_period: either a fixed-length datetime.timedelta
(measured in seconds) or a calendar-relative dateutil.relativedelta. -/
inductive PeriodDelta where
  | fixedSeconds (s : ℚ)
  | months (n : ℕ)
  | years (n : ℕ)
deriving DecidableEq

/-- Python truthiness of a period delta: timedelta(0) and
relativedelta(months=0) (or years=0) are falsy. -/
def periodDeltaTruthy : PeriodDelta → Bool
  | .fixedSeconds s => !(s == 0)
  | .months n => !(n == 0)
  | .years n => !(n == 0)

/-- Numeral value of a list of decimal digit characters (int(...)). -/
def natOfDigits (ds : List Char) : ℕ :=
  ds.foldl (fun acc c => 10 * acc + (c.toNat - 48)) 0

/-- MyTodoList._parse_period.  The regular expression
(\d+)(minute|hour|day|week|month|year) is full-matched: a non-empty maximal
digit prefix followed by exactly one unit word (no unit starts with a
digit, so the greedy \d+ never backtracks). -/
def _parse_period (period_str : Option String) : Option PeriodDelta :=
  match period_str with
  | none => none
  | some s =>
    if s == "" then none
    else
      let cs := s.toList
      let digits := cs.takeWhile Char.isDigit
      let rest := cs.dropWhile Char.isDigit
      if digits.isEmpty then none
      else
        let num := natOfDigits digits
        if rest = "minute".toList then some (.fixedSeconds (60 * num))
        else if rest = "hour".toList then some (.fixedSeconds (3600 * num))
        else if rest = "day".toList then some (.fixedSeconds (86400 * num))
        else if rest = "week".toList then some (.fixedSeconds (604800 * num))
        else if rest = "month".toList then some (.months num)
        else if rest = "year".toList then some (.years num)
        else none

/-! Civil (proleptic Gregorian) calendar arithmetic used to model
datetime.fromtimestamp, datetime.timestamp and relativedelta. -/

/-- Gregorian leap-year test. -/
def isLeap (y : ℤ) : Bool :=
  y % 4 == 0 && (y % 100 != 0 || y % 400 == 0)

/-- Number of days in a month (month in 1..12). -/
def daysInMonth (y : ℤ) (m : ℤ) : ℤ :=
  if m = 2 then (if isLeap y then 29 else 28)
  else if m = 4 ∨ m = 6 ∨ m = 9 ∨ m = 11 then 30
  else 31

/-- Day count since 1970-01-01 of a civil date (days-from-civil algorithm;
divisors are positive so Int.ediv is floor division). -/
def daysFromCivil (y m d : ℤ) : ℤ :=
  let yAdj := if m ≤ 2 then y - 1 else y
  let era := Int.ediv yAdj 400
  let yoe := yAdj - era * 400
  let mp := Int.emod (m + 9) 12
  let doy := Int.ediv (153 * mp + 2) 5 + d - 1
  let doe := yoe * 365 + Int.ediv yoe 4 - Int.ediv yoe 100 + doy
  era * 146097 + doe - 719468

/-- Civil date of a day count since 1970-01-01 (civil-from-days algorithm). -/
def civilFromDays (z0 : ℤ) : ℤ × ℤ × ℤ :=
  let z := z0 + 719468
  let era := Int.ediv z 146097
  let doe := z - era * 146097
  let yoe := Int.ediv (doe - Int.ediv doe 1460 + Int.ediv doe 36524 - Int.ediv doe 146096) 365
  let y := yoe + era * 400
  let doy := doe - (365 * yoe + Int.ediv yoe 4 - Int.ediv yoe 100)
  let mp := Int.ediv (5 * doy + 2) 153
  let d := doy - Int.ediv (153 * mp + 2) 5 + 1
  let m := mp + (if mp < 10 then 3 else -9)
  (if m ≤ 2 then y + 1 else y, m, d)

/-- A datetime value: civil date plus the second-of-day remainder. -/
structure CivilDateTime where
  year : ℤ
  month : ℤ
  day : ℤ
  secondOfDay : ℚ
deriving DecidableEq

/-- datetime.fromtimestamp on a numeric epoch timestamp (UTC model). -/
def fromtimestamp (t : ℚ) : CivilDateTime :=
  let days : ℤ := ⌊t / 86400⌋
  let rem : ℚ := t - 86400 * (days : ℚ)
  let c := civilFromDays days
  ⟨c.1, c.2.1, c.2.2, rem⟩

/-- datetime.timestamp (UTC model). -/
def timestamp (dt : CivilDateTime) : ℚ :=
  86400 * ((daysFromCivil dt.year dt.month dt.day : ℤ) : ℚ) + dt.secondOfDay

/-- Addition of relativedelta(months=n): advance the month count and clamp
the day-of-month to the length of the target month. -/
def addMonths (dt : CivilDateTime) (n : ℤ) : CivilDateTime :=
  let t := 12 * dt.year + (dt.month - 1) + n
  let y := Int.ediv t 12
  let m := Int.emod t 12 + 1
  ⟨y, m, min dt.day (daysInMonth y m), dt.secondOfDay⟩

/-- Addition of relativedelta(years=n): advance the year and clamp the
day-of-month (Feb 29 + 1 year is Feb 28). -/
def addYears (dt : CivilDateTime) (n : ℤ) : CivilDateTime :=
  let y := dt.year + n
  ⟨y, dt.month, min dt.day (daysInMonth y dt.month), dt.secondOfDay⟩

/-- Value of (datetime.fromtimestamp(t) + delta).timestamp().  For a fixed
timedelta this is plain addition of seconds; for relativedelta it is the
civil-calendar operation. -/
def applyPeriodDelta (pd : PeriodDelta) (t : ℚ) : ℚ :=
  match pd with
  | .fixedSeconds s => t + s
  | .months n => timestamp (addMonths (fromtimestamp t) n)
  | .years n => timestamp (addYears (fromtimestamp t) n)

/-! The list store: state, persistence and the mutation operations. -/

/-- Sort key used by _save_and_refresh and async_load_items:
float(item.due_datetime) when present, float('inf') otherwise. -/
def sortKey (it : TodoItem) : WithTop ℚ :=
  match it.due_datetime with
  | some q => (q : WithTop ℚ)
  | none => ⊤

/-- Comparison underlying list.sort(key=...). -/
def itemLE (a b : TodoItem) : Prop := sortKey a ≤ sortKey b

instance : DecidableRel itemLE := fun a b =>
  inferInstanceAs (Decidable (sortKey a ≤ sortKey b))

instance : IsTotal TodoItem itemLE := ⟨fun a b => le_total (sortKey a) (sortKey b)⟩

instance : IsTrans TodoItem itemLE := ⟨fun _ _ _ h h2 => le_trans h h2⟩

/-- list.sort(key=...) is a stable sort; insertion sort with the key order
is the unique stable sorting function. -/
def sortItems (l : List TodoItem) : List TodoItem :=
  l.insertionSort itemLE

/-- Content of the persisted JSON file written by _save_and_refresh. -/
structure SavedFile where
  display_name : String
  todo_items : List ItemDict
deriving DecidableEq

/-- Externally visible effects of an operation, in order of occurrence:
the atomic file replace, then the state/listener broadcast. -/
inductive Event where
  | saved (f : SavedFile)
  | notified (items : List TodoItem)
deriving DecidableEq

/-- In-memory state of one MyTodoList entity together with its storage
file. -/
structure ListState where
  display_name : String
  items : List TodoItem
  file : Option SavedFile
deriving DecidableEq

/-- MyTodoList._save_and_refresh: sort in place, write the file
atomically, then notify state listeners and subscribers. -/
def _save_and_refresh (st : ListState) : ListState × List Event :=
  let items := sortItems st.items
  let f : SavedFile := ⟨st.display_name, items.map to_dict⟩
  (⟨st.display_name, items, some f⟩, [Event.saved f, Event.notified items])

/-- Loop body of async_create_todo_item: find the first item with the same
summary and replace it by the new item carrying the old uid. -/
def createLoop : List TodoItem → TodoItem → Option (List TodoItem)
  | [], _ => none
  | ex :: rest, item =>
    if ex.summary == item.summary then
      some ({ item with uid := ex.uid } :: rest)
    else
      match createLoop rest item with
      | some rest2 => some (ex :: rest2)
      | none => none

/-- MyTodoList.async_create_todo_item.  freshUid stands for str(uuid.uuid4())
and is only consulted when no summary matches and the incoming uid is
falsy. -/
def async_create_todo_item (st : ListState) (item : TodoItem) (freshUid : String) :
    ListState × List Event :=
  match createLoop st.items item with
  | some items2 => _save_and_refresh { st with items := items2 }
  | none =>
    let item2 := if optStrTruthy item.uid then item else { item with uid := some freshUid }
    _save_and_refresh { st with items := st.items ++ [item2] }

/-- Loop body of async_update_todo_item: replace the first item matched by
uid (when the update carries a truthy uid) or by summary (when it does
not). -/
def updateLoop : List TodoItem → TodoItem → Option (List TodoItem)
  | [], _ => none
  | it :: rest, upd =>
    if optStrTruthy upd.uid && (it.uid == upd.uid) then
      some (upd :: rest)
    else if !(optStrTruthy upd.uid) && (it.summary == upd.summary) then
      some (upd :: rest)
    else
      match updateLoop rest upd with
      | some rest2 => some (it :: rest2)
      | none => none

/-- MyTodoList.async_update_todo_item: no match means a logged warning and
an early return without saving or notifying. -/
def async_update_todo_item (st : ListState) (upd : TodoItem) : ListState × List Event :=
  match updateLoop st.items upd with
  | some items2 => _save_and_refresh { st with items := items2 }
  | none => (st, [])

/-- MyTodoList.async_delete_todo_items: keep exactly the items whose uid is
not in the given list (a None uid is never equal to a string). -/
def async_delete_todo_items (st : ListState) (uids : List String) : ListState × List Event :=
  _save_and_refresh
    { st with
      items := st.items.filter fun it =>
        match it.uid with
        | none => true
        | some u => !(uids.contains u) }

/-- Placeholder item for the (never reached) out-of-range list access in
the move model. -/
def dummyItem : TodoItem :=
  ⟨none, "", "", none, none, none, none, none⟩

/-- Index assigned to a uid by the dict comprehension
\x7bitem.uid: idx for idx, item in enumerate(...)\x7d: the last index wins. -/
def lastIdxWithUid (items : List TodoItem) (u : String) : Option ℕ :=
  match items.reverse.findIdx? (fun it => it.uid == some u) with
  | some j => some (items.length - 1 - j)
  | none => none

/-- Result of async_move_todo_item: the state after the call, the emitted
events, and the raised ValueError message if any. -/
structure MoveResult where
  state : ListState
  events : List Event
  error : Option String
deriving DecidableEq

/-- MyTodoList.async_move_todo_item.  Note the source pops the moved item
out of the list before it validates previous_uid, so the not-found error
for previous_uid leaves the popped list behind. -/
def async_move_todo_item (st : ListState) (uid : String) (previous_uid : Option String) :
    MoveResult :=
  match lastIdxWithUid st.items uid with
  | none => ⟨st, [], some ("UID " ++ uid ++ " not found")⟩
  | some i =>
    let item := st.items.getD i dummyItem
    let popped := st.items.eraseIdx i
    if optStrTruthy previous_uid then
      let p := previous_uid.getD ""
      match lastIdxWithUid st.items p with
      | none =>
        ⟨{ st with items := popped }, [], some ("Previous UID " ++ p ++ " not found")⟩
      | some pi =>
        let piAdj := if pi > i then pi - 1 else pi
        let r := _save_and_refresh { st with items := popped.insertIdx (piAdj + 1) item }
        ⟨r.1, r.2, none⟩
    else
      let r := _save_and_refresh { st with items := popped.insertIdx 0 item }
      ⟨r.1, r.2, none⟩

/-- Body of the loop in async_update_requiring_items for one item: the
returned flag says whether the item was rescheduled. -/
def rescheduleItem (now : ℚ) (it : TodoItem) : TodoItem × Bool :=
  if !(optBoolTruthy it.requiring) || !(optStrTruthy it.period) then (it, false)
  else
    match _parse_period it.period with
    | none => (it, false)
    | some pd =>
      if !(periodDeltaTruthy pd) then (it, false)
      else if it.status == COMPLETED then
        let newDue :=
          if optRatTruthy it.due_datetime then
            applyPeriodDelta pd (it.due_datetime.getD 0)
          else
            applyPeriodDelta pd now
        ({ it with status := NEEDS_ACTION, due_datetime := some newDue }, true)
      else (it, false)

/-- MyTodoList.async_update_requiring_items: rewrite each item in place,
then save and notify once if anything was rescheduled, else do no I/O. -/
def async_update_requiring_items (st : ListState) (now : ℚ) : ListState × List Event :=
  let items := st.items.map fun it => (rescheduleItem now it).1
  let updated := st.items.any fun it => (rescheduleItem now it).2
  if updated then _save_and_refresh { st with items := items }
  else ({ st with items := items }, [])

/-- Parsed shape of a persisted file as read by async_load_items: either
the wrapped object or the legacy bare array. -/
inductive StoredFormat where
  | legacy (items : List ItemDict)
  | wrapped (display_name : Option String) (todo_items : List ItemDict)
deriving DecidableEq

/-- MyTodoList.async_load_items on a file that exists and parses: pick up
the stored display name when it is truthy, convert each dict and sort. -/
def async_load_items (st : ListState) (file : Option StoredFormat) : ListState :=
  match file with
  | none => { st with items := [] }
  | some (.legacy items) =>
    { st with items := sortItems (items.map from_dict) }
  | some (.wrapped dn items) =>
    let st2 :=
      if optStrTruthy dn then { st with display_name := dn.getD "" } else st
    { st2 with items := sortItems (items.map from_dict) }

/-- Items obtained by reading a file previously written by
_save_and_refresh back through async_load_items. -/
def loadedItems (f : SavedFile) : List TodoItem :=
  sortItems (f.todo_items.map from_dict)

/-- One List Store operation, as named by the spec. -/
inductive Op where
  | create (item : TodoItem) (freshUid : String)
  | update (item : TodoItem)
  | delete (uids : List String)
  | move (uid : String) (previous_uid : Option String)
  | reschedule (now : ℚ)

/-- Apply one operation: new state, events, and the raised error if any. -/
def applyOp (st : ListState) : Op → ListState × List Event × Option String
  | .create it f =>
    let r := async_create_todo_item st it f
    (r.1, r.2, none)
  | .update it =>
    let r := async_update_todo_item st it
    (r.1, r.2, none)
  | .delete uids =>
    let r := async_delete_todo_items st uids
    (r.1, r.2, none)
  | .move u p =>
    let r := async_move_todo_item st u p
    (r.state, r.events, r.error)
  | .reschedule now =>
    let r := async_update_requiring_items st now
    (r.1, r.2, none)

/-- Run a sequence of operations from a starting state. -/
def runOps (st : ListState) : List Op → ListState
  | [] => st
  | o :: rest => runOps (applyOp st o).1 rest

/-- Every operation of the sequence runs without raising, along the actual
execution. -/
def opsOk (st : ListState) : List Op → Prop
  | [] => True
  | o :: rest => (applyOp st o).2.2 = none ∧ opsOk (applyOp st o).1 rest

/-! Helper lemmas. -/

theorem from_to_dict (it : TodoItem) : from_dict (to_dict it) = it := rfl

theorem save_refresh_eq (st : ListState) :
    _save_and_refresh st =
      (⟨st.display_name, sortItems st.items,
        some ⟨st.display_name, (sortItems st.items).map to_dict⟩⟩,
       [Event.saved ⟨st.display_name, (sortItems st.items).map to_dict⟩,
        Event.notified (sortItems st.items)]) := rfl

theorem sortItems_sorted (l : List TodoItem) : (sortItems l).Sorted itemLE :=
  List.sorted_insertionSort itemLE l

theorem sortItems_perm (l : List TodoItem) : List.Perm (sortItems l) l :=
  List.perm_insertionSort itemLE l

theorem sortItems_stable {a b : TodoItem} {l : List TodoItem}
    (hab : itemLE a b) (h : List.Sublist [a, b] l) : List.Sublist [a, b] (sortItems l) :=
  List.pair_sublist_insertionSort hab h

theorem sortItems_of_sorted {l : List TodoItem} (h : l.Sorted itemLE) :
    sortItems l = l :=
  List.Sorted.insertionSort_eq h

theorem sortItems_idem (l : List TodoItem) : sortItems (sortItems l) = sortItems l :=
  sortItems_of_sorted (sortItems_sorted l)

theorem loadedItems_saved (dn : String) (l : List TodoItem) :
    loadedItems ⟨dn, (sortItems l).map to_dict⟩ = sortItems l := by
  unfold loadedItems
  rw [List.map_map]
  have h : (from_dict ∘ to_dict) = id := funext fun it => from_to_dict it
  rw [h, List.map_id]
  exact sortItems_idem l

theorem insertIdx_perm_or_eq (a : TodoItem) :
    ∀ (n : ℕ) (l : List TodoItem), List.Perm (l.insertIdx n a) (a :: l) ∨ l.insertIdx n a = l
  | 0, l => Or.inl (by simp)
  | _ + 1, [] => Or.inr rfl
  | n + 1, b :: l => by
    rcases insertIdx_perm_or_eq a n l with h | h
    · exact Or.inl (by simpa using ((h.cons b).trans (List.Perm.swap a b l)))
    · exact Or.inr (by simp [h])

theorem takeWhile_append_of_all {p : Char → Bool} :
    ∀ {l : List Char} (r : List Char), (∀ c ∈ l, p c = true) →
      (l ++ r).takeWhile p = l ++ r.takeWhile p
  | [], _, _ => by simp
  | c :: l, r, h => by
    have hc : p c = true := h c (by simp)
    simp only [List.cons_append, List.takeWhile_cons, hc, if_true]
    rw [takeWhile_append_of_all r fun x hx => h x (by simp [hx])]

theorem dropWhile_append_of_all {p : Char → Bool} :
    ∀ {l : List Char} (r : List Char), (∀ c ∈ l, p c = true) →
      (l ++ r).dropWhile p = r.dropWhile p
  | [], _, _ => by simp
  | c :: l, r, h => by
    have hc : p c = true := h c (by simp)
    simp only [List.cons_append, List.dropWhile_cons, hc, if_true]
    exact dropWhile_append_of_all r fun x hx => h x (by simp [hx])

theorem createLoop_eq_none {item : TodoItem} :
    ∀ {l : List TodoItem}, (∀ ex ∈ l, ex.summary ≠ item.summary) → createLoop l item = none
  | [], _ => rfl
  | ex :: rest, h => by
    have hx : (ex.summary == item.summary) = false := by
      simpa using h ex (by simp)
    have hr := createLoop_eq_none (l := rest) fun x hx2 => h x (by simp [hx2])
    simp [createLoop, hx, hr]

theorem createLoop_found {item ex : TodoItem} (post : List TodoItem)
    (hex : ex.summary = item.summary) :
    ∀ (pre : List TodoItem), (∀ x ∈ pre, x.summary ≠ item.summary) →
      createLoop (pre ++ ex :: post) item =
        some (pre ++ { item with uid := ex.uid } :: post)
  | [], _ => by simp [createLoop, hex]
  | x :: pre, h => by
    have hx : (x.summary == item.summary) = false := by
      simpa using h x (by simp)
    have hr := createLoop_found post hex pre fun y hy => h y (by simp [hy])
    simp [createLoop, hx, hr]

theorem createLoop_map_uid {item : TodoItem} :
    ∀ {l l2 : List TodoItem}, createLoop l item = some l2 →
      l2.map (fun it => it.uid) = l.map (fun it => it.uid)
  | [], _, h => by simp [createLoop] at h
  | ex :: rest, l2, h => by
    by_cases hx : (ex.summary == item.summary) = true
    · simp only [createLoop, hx, if_true, Option.some.injEq] at h
      subst h; simp
    · have hx2 : (ex.summary == item.summary) = false := by simpa using hx
      cases hrec : createLoop rest item with
      | none => simp [createLoop, hx2, hrec] at h
      | some rest2 =>
        simp only [createLoop, hx2, hrec] at h
        simp only [Bool.false_eq_true, if_false, Option.some.injEq] at h
        subst h
        simp [createLoop_map_uid hrec]

theorem updateLoop_map_uid {upd : TodoItem} (ht : optStrTruthy upd.uid = true) :
    ∀ {l l2 : List TodoItem}, updateLoop l upd = some l2 →
      l2.map (fun it => it.uid) = l.map (fun it => it.uid)
  | [], _, h => by simp [updateLoop] at h
  | it :: rest, l2, h => by
    by_cases hx : (it.uid == upd.uid) = true
    · have hu : it.uid = upd.uid := by simpa using hx
      simp only [updateLoop, ht, hx, Bool.and_self, Bool.true_and, if_true,
        Option.some.injEq] at h
      subst h
      simp [hu]
    · have hx2 : (it.uid == upd.uid) = false := by simpa using hx
      cases hrec : updateLoop rest upd with
      | none => simp [updateLoop, ht, hx2, hrec] at h
      | some rest2 =>
        simp only [updateLoop, ht, hx2, hrec, Bool.and_false, Bool.not_true,
          Bool.false_and, Bool.false_eq_true, if_false, Option.some.injEq] at h
        subst h
        simp [updateLoop_map_uid ht hrec]

theorem rescheduleItem_uid (now : ℚ) (it : TodoItem) :
    (rescheduleItem now it).1.uid = it.uid := by
  unfold rescheduleItem
  split
  · rfl
  · split
    · rfl
    · split
      · rfl
      · split
        · rfl
        · rfl

/-! Lemmas about the period parser. -/

/-- Unit words admitted by the period regular expression. -/
def periodUnits : List String := ["minute", "hour", "day", "week", "month", "year"]

/-- Delta produced by the parser for a given unit word and count. -/
def mkDelta (u : String) (n : ℕ) : PeriodDelta :=
  if u = "minute" then .fixedSeconds (60 * n)
  else if u = "hour" then .fixedSeconds (3600 * n)
  else if u = "day" then .fixedSeconds (86400 * n)
  else if u = "week" then .fixedSeconds (604800 * n)
  else if u = "month" then .months n
  else .years n

theorem mkDelta_truthy_iff (u : String) (n : ℕ) (hu : u ∈ periodUnits) :
    periodDeltaTruthy (mkDelta u n) = true ↔ 0 < n := by
  fin_cases hu <;>
    simp [mkDelta, periodDeltaTruthy, beq_iff_eq, Nat.pos_iff_ne_zero]

theorem str_beq_empty_false {s : String} (h : s.toList ≠ []) : (s == "") = false := by
  rw [beq_eq_false_iff_ne]
  intro he
  subst he
  exact h rfl

theorem parse_period_eval {s : String} {ds : List Char} {u : String}
    (hne : ds ≠ []) (hdig : ∀ c ∈ ds, c.isDigit = true) (hu : u ∈ periodUnits)
    (hsplit : s.toList = ds ++ u.toList) :
    _parse_period (some s) = some (mkDelta u (natOfDigits ds)) := by
  have hlne : s.toList ≠ [] := by
    rw [hsplit]
    intro h
    exact hne (List.append_eq_nil.mp h).1
  have hsne : (s == "") = false := str_beq_empty_false hlne
  have htake : s.toList.takeWhile Char.isDigit = ds := by
    rw [hsplit, takeWhile_append_of_all _ hdig]
    have h2 : u.toList.takeWhile Char.isDigit = [] := by fin_cases hu <;> rfl
    rw [h2, List.append_nil]
  have hdrop : s.toList.dropWhile Char.isDigit = u.toList := by
    rw [hsplit, dropWhile_append_of_all _ hdig]
    fin_cases hu <;> rfl
  have hie : ds.isEmpty = false := by
    cases ds with
    | nil => exact absurd rfl hne
    | cons c cs => rfl
  simp only [_parse_period, hsne, Bool.false_eq_true, if_false, htake, hdrop, hie]
  fin_cases hu <;> rfl

theorem parse_period_inv {s : String} {pd : PeriodDelta}
    (h : _parse_period (some s) = some pd) :
    ∃ u, u ∈ periodUnits ∧ s.toList = s.toList.takeWhile Char.isDigit ++ u.toList ∧
      s.toList.takeWhile Char.isDigit ≠ [] ∧
      pd = mkDelta u (natOfDigits (s.toList.takeWhile Char.isDigit)) := by
  have hTD := List.takeWhile_append_dropWhile Char.isDigit s.toList
  by_cases hs : (s == "") = true
  · simp only [_parse_period, hs, if_true] at h
    exact absurd h (by simp)
  · have hs2 : (s == "") = false := by simpa using hs
    simp only [_parse_period, hs2, Bool.false_eq_true, if_false] at h
    by_cases hie : (s.toList.takeWhile Char.isDigit).isEmpty = true
    · simp only [hie, if_true] at h
      exact absurd h (by simp)
    · have hie2 : (s.toList.takeWhile Char.isDigit).isEmpty = false := by simpa using hie
      have hne3 : s.toList.takeWhile Char.isDigit ≠ [] := by
        intro he
        rw [he] at hie2
        simp at hie2
      simp only [hie2, Bool.false_eq_true, if_false] at h
      by_cases h1 : s.toList.dropWhile Char.isDigit = "minute".toList
      · rw [if_pos h1] at h
        injection h with h
        exact ⟨"minute", by decide, by rw [← h1]; exact hTD.symm, hne3, h.symm⟩
      · rw [if_neg h1] at h
        by_cases h2 : s.toList.dropWhile Char.isDigit = "hour".toList
        · rw [if_pos h2] at h
          injection h with h
          exact ⟨"hour", by decide, by rw [← h2]; exact hTD.symm, hne3, h.symm⟩
        · rw [if_neg h2] at h
          by_cases h3 : s.toList.dropWhile Char.isDigit = "day".toList
          · rw [if_pos h3] at h
            injection h with h
            exact ⟨"day", by decide, by rw [← h3]; exact hTD.symm, hne3, h.symm⟩
          · rw [if_neg h3] at h
            by_cases h4 : s.toList.dropWhile Char.isDigit = "week".toList
            · rw [if_pos h4] at h
              injection h with h
              exact ⟨"week", by decide, by rw [← h4]; exact hTD.symm, hne3, h.symm⟩
            · rw [if_neg h4] at h
              by_cases h5 : s.toList.dropWhile Char.isDigit = "month".toList
              · rw [if_pos h5] at h
                injection h with h
                exact ⟨"month", by decide, by rw [← h5]; exact hTD.symm, hne3, h.symm⟩
              · rw [if_neg h5] at h
                by_cases h6 : s.toList.dropWhile Char.isDigit = "year".toList
                · rw [if_pos h6] at h
                  injection h with h
                  exact ⟨"year", by decide, by rw [← h6]; exact hTD.symm, hne3, h.symm⟩
                · rw [if_neg h6] at h
                  exact absurd h (by simp)

/-- Truthiness of the period string follows from a successful parse. -/
theorem parse_some_period_truthy {p : Option String} {pd : PeriodDelta}
    (h : _parse_period p = some pd) : optStrTruthy p = true := by
  cases p with
  | none => simp [_parse_period] at h
  | some s =>
    by_cases hs : (s == "") = true
    · simp only [_parse_period, hs, if_true] at h
      exact absurd h (by simp)
    · simp [optStrTruthy, by simpa using hs]

/-! Concrete fixtures used by witnesses and counterexamples. -/

/-- Fixture item with uid "a". -/
def itemA : TodoItem := ⟨some "a", "alpha", NEEDS_ACTION, none, none, none, none, none⟩

/-- Fixture item with uid "b". -/
def itemB : TodoItem := ⟨some "b", "beta", NEEDS_ACTION, none, none, none, none, none⟩

/-- Fixture item with a caller-supplied uid "c". -/
def itemC : TodoItem := ⟨some "c", "gamma", NEEDS_ACTION, none, none, none, none, none⟩

/-- Fixture persisted file matching the fixture state. -/
def fileC1 : SavedFile := ⟨"My List", [to_dict itemA, to_dict itemB]⟩

/-- Fixture state holding itemA and itemB, with a matching persisted file. -/
def stC1 : ListState := ⟨"My List", [itemA, itemB], some fileC1⟩

/-- Fixture empty state. -/
def stEmpty : ListState := ⟨"L", [], none⟩

/-! Claim theorems. -/

/-- C1: evaluating move_item at the failing input: on a list [itemA, itemB]
with both uids present, move_item("a", after_id="zz") raises the expected
not-found ValueError, and the persisted file and subscribers are indeed
untouched, but the in-memory sequence is corrupted: itemA has been popped
and never reinserted, so the state no longer equals the pre-call state.
This contradicts the claim (and the spec's rule that validation errors
never corrupt list state): the source validates previous_uid only after
popping the moved item. -/
theorem c1_move_not_found_pops_item :
    (async_move_todo_item stC1 "a" (some "zz")).error = some "Previous UID zz not found"
    ∧ (async_move_todo_item stC1 "a" (some "zz")).state.items = [itemB]
    ∧ (async_move_todo_item stC1 "a" (some "zz")).state.items ≠ stC1.items
    ∧ (async_move_todo_item stC1 "a" (some "zz")).state.file = stC1.file
    ∧ (async_move_todo_item stC1 "a" (some "zz")).events = [] := by
  refine ⟨rfl, rfl, ?_, rfl, rfl⟩
  decide

/-- C9: loading a legacy bare-array persisted file produces exactly the
same state as loading the wrapped-object format carrying the same items
and no display name, and the legacy load leaves the display name (and the
rest of the state besides the items) unchanged. -/
theorem c9_legacy_wrapped_load_agree (st : ListState) (items : List ItemDict) :
    async_load_items st (some (.legacy items)) = async_load_items st (some (.wrapped none items))
    ∧ (async_load_items st (some (.legacy items))).display_name = st.display_name
    ∧ (async_load_items st (some (.legacy items))).items = sortItems (items.map from_dict)
    ∧ (async_load_items st (some (.legacy items))).file = st.file := by
  refine ⟨?_, rfl, rfl, rfl⟩
  simp [async_load_items, optStrTruthy]

/-- C10: when no existing item shares the summary, create_item appends the
incoming item retaining exactly its caller-supplied non-empty uid; the
fresh uuid is attached only when the incoming uid is absent or empty. -/
theorem c10_create_retains_caller_uid (st : ListState) (item : TodoItem) (freshUid : String) :
    (∀ u, item.uid = some u → u ≠ "" →
      (∀ ex ∈ st.items, ex.summary ≠ item.summary) →
      (async_create_todo_item st item freshUid).1.items = sortItems (st.items ++ [item]))
    ∧ ((item.uid = none ∨ item.uid = some "") →
      (∀ ex ∈ st.items, ex.summary ≠ item.summary) →
      (async_create_todo_item st item freshUid).1.items =
        sortItems (st.items ++ [{ item with uid := some freshUid }])) := by
  constructor
  · intro u hu hne hno
    have ht : optStrTruthy item.uid = true := by simp [optStrTruthy, hu, hne]
    simp [async_create_todo_item, createLoop_eq_none hno, ht, _save_and_refresh]
  · intro hu hno
    have ht : optStrTruthy item.uid = false := by
      rcases hu with h | h <;> simp [optStrTruthy, h]
    simp [async_create_todo_item, createLoop_eq_none hno, ht, _save_and_refresh]

/-- C10 witness: instantiating at the fixture state and itemC. -/
theorem c10_create_retains_caller_uid_witness :
    (async_create_todo_item stC1 itemC "fresh-uid").1.items = sortItems (stC1.items ++ [itemC]) :=
  (c10_create_retains_caller_uid stC1 itemC "fresh-uid").1 "c" rfl (by decide) (by decide)

/-- C5 counterexample: on an empty list, create_item with an item carrying
the caller uid "c" appends it with uid "c" unchanged; no new unique id is
assigned (the freshly generated id "fresh-uid" appears nowhere), refuting
the claim that the no-summary-match branch always assigns a new id. -/
theorem c5_counterexample_supplied_uid_kept :
    ((async_create_todo_item stEmpty itemC "fresh-uid").1.items.map fun it => it.uid) = [some "c"]
    ∧ ∀ it ∈ (async_create_todo_item stEmpty itemC "fresh-uid").1.items,
        it.uid ≠ some "fresh-uid" := by
  constructor
  · decide
  · decide

/-- C5 amended: if some existing item has the same summary, the first such
item is replaced by the new item's fields with its id preserved; otherwise
the item is appended, a new unique id being assigned only when the
incoming item has no (or an empty) id, a caller-supplied id being kept;
in either branch the list is re-sorted, persisted, and subscribers are
notified after the save. -/
theorem c5_amended_create_by_summary (st : ListState) (item : TodoItem) (freshUid : String) :
    (∀ pre ex post, st.items = pre ++ ex :: post →
      (∀ x ∈ pre, x.summary ≠ item.summary) → ex.summary = item.summary →
      async_create_todo_item st item freshUid =
        (⟨st.display_name, sortItems (pre ++ { item with uid := ex.uid } :: post),
          some ⟨st.display_name,
            (sortItems (pre ++ { item with uid := ex.uid } :: post)).map to_dict⟩⟩,
         [Event.saved ⟨st.display_name,
            (sortItems (pre ++ { item with uid := ex.uid } :: post)).map to_dict⟩,
          Event.notified (sortItems (pre ++ { item with uid := ex.uid } :: post))]))
    ∧ ((∀ ex ∈ st.items, ex.summary ≠ item.summary) →
      (let item2 := if optStrTruthy item.uid then item else { item with uid := some freshUid }
      async_create_todo_item st item freshUid =
        (⟨st.display_name, sortItems (st.items ++ [item2]),
          some ⟨st.display_name, (sortItems (st.items ++ [item2])).map to_dict⟩⟩,
         [Event.saved ⟨st.display_name, (sortItems (st.items ++ [item2])).map to_dict⟩,
          Event.notified (sortItems (st.items ++ [item2]))]))) := by
  constructor
  · intro pre ex post hsplit hpre hex
    unfold async_create_todo_item
    rw [hsplit, createLoop_found post hex pre hpre]
    rfl
  · intro hno
    unfold async_create_todo_item
    rw [createLoop_eq_none hno]
    rfl

/-- C5 witness: creating an item whose summary duplicates itemA's replaces
itemA but keeps uid "a"; appending itemC on the fixture state keeps uid
"c". -/
theorem c5_amended_create_by_summary_witness :
    async_create_todo_item stC1 ⟨none, "alpha", COMPLETED, none, none, none, none, none⟩ "f2" =
      (⟨"My List", sortItems ([] ++ ⟨some "a", "alpha", COMPLETED, none, none, none, none, none⟩ :: [itemB]),
        some ⟨"My List",
          (sortItems ([] ++ ⟨some "a", "alpha", COMPLETED, none, none, none, none, none⟩ :: [itemB])).map to_dict⟩⟩,
       [Event.saved ⟨"My List",
          (sortItems ([] ++ ⟨some "a", "alpha", COMPLETED, none, none, none, none, none⟩ :: [itemB])).map to_dict⟩,
        Event.notified (sortItems ([] ++ ⟨some "a", "alpha", COMPLETED, none, none, none, none, none⟩ :: [itemB]))]) :=
  (c5_amended_create_by_summary stC1 ⟨none, "alpha", COMPLETED, none, none, none, none, none⟩ "f2").1
    [] itemA [itemB] rfl (by decide) rfl

/-- Spec-side reading of the period regular expression
(a maximal run of digits followed by a unit word) together with the
strictly-positive count requirement. -/
def SpecPeriodMatch (s : String) : Prop :=
  ∃ ds u, s.toList = ds ++ u.toList ∧ ds ≠ [] ∧ (∀ c ∈ ds, c.isDigit = true) ∧
    u ∈ periodUnits ∧ 0 < natOfDigits ds

/-- C4: the period parser produces a usable (truthy) duration or calendar
offset exactly for the strings matching the regex with a strictly positive
count; any other string yields no usable duration and never an error (the
parser is total); in particular a zero count such as "0day" parses to the
zero timedelta, which is falsy and therefore treated by every caller as
"no duration". -/
theorem c4_period_regex (s : String) :
    ((∃ pd, _parse_period (some s) = some pd ∧ periodDeltaTruthy pd = true)
      ↔ SpecPeriodMatch s)
    ∧ (¬ SpecPeriodMatch s →
        ∀ pd, _parse_period (some s) = some pd → periodDeltaTruthy pd = false)
    ∧ ((_parse_period (some "0day")).isSome = true
        ∧ ∀ pd, _parse_period (some "0day") = some pd → periodDeltaTruthy pd = false) := by
  have hiff : (∃ pd, _parse_period (some s) = some pd ∧ periodDeltaTruthy pd = true)
      ↔ SpecPeriodMatch s := by
    constructor
    · rintro ⟨pd, hp, ht⟩
      obtain ⟨u, hu, hsplit, hne, hpd⟩ := parse_period_inv hp
      refine ⟨s.toList.takeWhile Char.isDigit, u, hsplit, hne,
        fun c hc => List.mem_takeWhile_imp hc, hu, ?_⟩
      rw [hpd] at ht
      exact (mkDelta_truthy_iff u _ hu).mp ht
    · rintro ⟨ds, u, hsplit, hne, hdig, hu, hpos⟩
      exact ⟨mkDelta u (natOfDigits ds), parse_period_eval hne hdig hu hsplit,
        (mkDelta_truthy_iff u _ hu).mpr hpos⟩
  have h0 : _parse_period (some "0day") = some (mkDelta "day" (natOfDigits ['0'])) :=
    parse_period_eval (by decide) (by decide) (by decide) (by decide)
  refine ⟨hiff, ?_, ?_, ?_⟩
  · intro hnm pd hp
    by_cases ht : periodDeltaTruthy pd = true
    · exact absurd (hiff.mp ⟨pd, hp, ht⟩) hnm
    · simpa using ht
  · rw [h0]
    rfl
  · intro pd hp
    rw [h0] at hp
    injection hp with hp
    subst hp
    have := mkDelta_truthy_iff "day" (natOfDigits ['0']) (by decide)
    by_cases ht : periodDeltaTruthy (mkDelta "day" (natOfDigits ['0'])) = true
    · have := this.mp ht
      exact absurd this (by decide)
    · simpa using ht

/-- C4 witness: "5day" matches the regex and parses to a truthy duration. -/
theorem c4_period_regex_witness :
    ∃ pd, _parse_period (some "5day") = some pd ∧ periodDeltaTruthy pd = true :=
  (c4_period_regex "5day").1.mpr
    ⟨['5'], "day", by decide, by decide, by decide, by decide, by decide⟩

/-! Lemmas for the recurrence engine (C2, C3). -/

/-- Condition under which async_update_requiring_items rewrites an item:
requiring is truthy, the period parses to a truthy delta, and the status
is COMPLETED. -/
def RecurringCompleted (it : TodoItem) : Prop :=
  optBoolTruthy it.requiring = true ∧ it.status = COMPLETED ∧
    ∃ pd, _parse_period it.period = some pd ∧ periodDeltaTruthy pd = true

theorem rescheduleItem_skip (now : ℚ) (it : TodoItem) (h : ¬ RecurringCompleted it) :
    rescheduleItem now it = (it, false) := by
  cases hreq : optBoolTruthy it.requiring with
  | false => simp [rescheduleItem, hreq]
  | true =>
    cases hper : optStrTruthy it.period with
    | false => simp [rescheduleItem, hreq, hper]
    | true =>
      cases hp : _parse_period it.period with
      | none => simp [rescheduleItem, hreq, hper, hp]
      | some pd =>
        cases ht : periodDeltaTruthy pd with
        | false => simp [rescheduleItem, hreq, hper, hp, ht]
        | true =>
          cases hs : it.status == COMPLETED with
          | false => simp [rescheduleItem, hreq, hper, hp, ht, hs]
          | true =>
            exact absurd ⟨hreq, by simpa using hs, pd, hp, ht⟩ h

theorem rescheduleItem_fire (now : ℚ) (it : TodoItem) (pd : PeriodDelta)
    (hreq : optBoolTruthy it.requiring = true) (hs : it.status = COMPLETED)
    (hp : _parse_period it.period = some pd) (ht : periodDeltaTruthy pd = true) :
    rescheduleItem now it =
      ({ it with
          status := NEEDS_ACTION
          due_datetime := some (match it.due_datetime with
            | some q => if q ≠ 0 then applyPeriodDelta pd q else applyPeriodDelta pd now
            | none => applyPeriodDelta pd now) }, true) := by
  have hper := parse_some_period_truthy hp
  have hsb : (it.status == COMPLETED) = true := by simp [hs]
  cases hdue : it.due_datetime with
  | none => simp [rescheduleItem, hreq, hper, hp, ht, hsb, hdue, optRatTruthy]
  | some q =>
    by_cases hq : q = 0
    · subst hq
      simp [rescheduleItem, hreq, hper, hp, ht, hsb, hdue, optRatTruthy]
    · simp [rescheduleItem, hreq, hper, hp, ht, hsb, hdue, optRatTruthy, hq]

theorem rescheduleItem_flag (now : ℚ) (it : TodoItem) :
    (rescheduleItem now it).2 = true ↔ RecurringCompleted it := by
  constructor
  · intro h2
    by_cases hrc : RecurringCompleted it
    · exact hrc
    · rw [rescheduleItem_skip now it hrc] at h2
      simp at h2
  · rintro ⟨hreq, hs, pd, hp, ht⟩
    rw [rescheduleItem_fire now it pd hreq hs hp ht]

/-- C2 amended: reschedule_requiring_items rewrites exactly the items with
truthy requiring, a period parsing to a truthy delta, and status
COMPLETED: their status returns to NEEDS_ACTION and their due instant
becomes (old due + offset) when a nonzero due instant existed, else
(now + offset) (a stored due timestamp equal to 0 is treated as absent by
the source's truthiness test); every other item ends unchanged; if at
least one item matched, the list is sorted, persisted once and broadcast
once; otherwise the state is untouched and no I/O or notification
happens. -/
theorem c2_reschedule_requiring (st : ListState) (now : ℚ) :
    (∀ it, ¬ RecurringCompleted it → rescheduleItem now it = (it, false))
    ∧ (∀ it pd, optBoolTruthy it.requiring = true → it.status = COMPLETED →
        _parse_period it.period = some pd → periodDeltaTruthy pd = true →
        rescheduleItem now it =
          ({ it with
              status := NEEDS_ACTION
              due_datetime := some (match it.due_datetime with
                | some q => if q ≠ 0 then applyPeriodDelta pd q else applyPeriodDelta pd now
                | none => applyPeriodDelta pd now) }, true))
    ∧ ((∀ it ∈ st.items, ¬ RecurringCompleted it) →
        async_update_requiring_items st now = (st, []))
    ∧ ((∃ it ∈ st.items, RecurringCompleted it) →
        async_update_requiring_items st now =
          (⟨st.display_name,
            sortItems (st.items.map fun it => (rescheduleItem now it).1),
            some ⟨st.display_name,
              (sortItems (st.items.map fun it => (rescheduleItem now it).1)).map to_dict⟩⟩,
           [Event.saved ⟨st.display_name,
              (sortItems (st.items.map fun it => (rescheduleItem now it).1)).map to_dict⟩,
            Event.notified (sortItems (st.items.map fun it => (rescheduleItem now it).1))])) := by
  refine ⟨rescheduleItem_skip now, fun it pd h1 h2 h3 h4 => rescheduleItem_fire now it pd h1 h2 h3 h4, ?_, ?_⟩
  · intro h
    have hmap : (st.items.map fun it => (rescheduleItem now it).1) = st.items := by
      conv_rhs => rw [← List.map_id st.items]
      apply List.map_congr_left
      intro it hit
      rw [rescheduleItem_skip now it (h it hit)]
      rfl
    have hany : (st.items.any fun it => (rescheduleItem now it).2) = false := by
      rw [List.any_eq_false]
      intro it hit
      rw [rescheduleItem_skip now it (h it hit)]
      simp
    simp [async_update_requiring_items, hany, hmap]
  · intro h
    have hany : (st.items.any fun it => (rescheduleItem now it).2) = true := by
      rw [List.any_eq_true]
      obtain ⟨it, hit, hrc⟩ := h
      exact ⟨it, hit, (rescheduleItem_flag now it).mpr hrc⟩
    simp [async_update_requiring_items, hany, _save_and_refresh]

/-- C2 witness: on the empty fixture list nothing is recurring, so the
operation is the identity and performs no I/O. -/
theorem c2_reschedule_requiring_witness :
    async_update_requiring_items stEmpty 5 = (stEmpty, []) :=
  (c2_reschedule_requiring stEmpty 5).2.2.1 (by intro it hit; simp [stEmpty] at hit)

/-- Fixture completed recurring item whose stored due timestamp is the
epoch instant 0. -/
def itemZ : TodoItem := ⟨some "z", "zeta", COMPLETED, none, some 0, none, some true, some "1day"⟩

/-- Fixture state holding only itemZ. -/
def stZ : ListState := ⟨"L", [itemZ], none⟩

/-- C2 counterexample: itemZ has a due instant (the epoch timestamp 0) and
period "1day", so the claim requires the new due instant 0 + 86400 =
86400; but the code tests the old due with Python truthiness, treats the
stored 0 as absent, and produces now + 86400 = 172800 instead. -/
theorem c2_counterexample_zero_due :
    ((async_update_requiring_items stZ 86400).1.items.map fun it => it.due_datetime)
        = [some 172800]
    ∧ (172800 : ℚ) ≠ 0 + 86400 := by
  have hp : _parse_period (some "1day") = some (mkDelta "day" (natOfDigits [Char.ofNat 49])) :=
    parse_period_eval (by decide) (by decide) (by decide) (by decide)
  have hmk : mkDelta "day" (natOfDigits [Char.ofNat 49]) = .fixedSeconds (86400 * ((1:ℕ):ℚ)) := rfl
  rw [hmk] at hp
  have ht : periodDeltaTruthy (PeriodDelta.fixedSeconds (86400 * ((1:ℕ):ℚ))) = true := by
    simp [periodDeltaTruthy, beq_iff_eq]
  have hfire := rescheduleItem_fire 86400 itemZ _ (by decide) rfl hp ht
  have hrc : RecurringCompleted itemZ := ⟨by decide, rfl, _, hp, ht⟩
  have hmain := (c2_reschedule_requiring stZ 86400).2.2.2 ⟨itemZ, by simp [stZ], hrc⟩
  rw [hmain]
  constructor
  · have : (stZ.items.map fun it => (rescheduleItem 86400 it).1)
        = [({ itemZ with
              status := NEEDS_ACTION
              due_datetime := some (applyPeriodDelta (PeriodDelta.fixedSeconds (86400 * ((1:ℕ):ℚ))) 86400) } : TodoItem)] := by
      simp only [stZ, List.map]
      rw [hfire]
      rfl
    rw [this]
    simp [sortItems, List.insertionSort, applyPeriodDelta]
    norm_num
  · norm_num

/-! Calendar lemmas for C3. -/

theorem fromtimestamp_day_mul (d : ℤ) :
    fromtimestamp (86400 * (d:ℚ)) =
      ⟨(civilFromDays d).1, (civilFromDays d).2.1, (civilFromDays d).2.2, 0⟩ := by
  have h1 : (86400 * (d:ℚ)) / 86400 = (d:ℚ) := by
    rw [mul_comm, mul_div_assoc]
    norm_num
  simp [fromtimestamp, h1, Int.floor_intCast]

theorem month_shift_concrete (d1 d2 : ℤ) (n : ℕ)
    (h : addMonths ⟨(civilFromDays d1).1, (civilFromDays d1).2.1, (civilFromDays d1).2.2, 0⟩ (n:ℤ)
         = ⟨(civilFromDays d2).1, (civilFromDays d2).2.1, (civilFromDays d2).2.2, 0⟩)
    (h2 : daysFromCivil (civilFromDays d2).1 (civilFromDays d2).2.1 (civilFromDays d2).2.2 = d2) :
    applyPeriodDelta (.months n) (86400 * (d1:ℚ)) = 86400 * (d2:ℚ) := by
  show timestamp (addMonths (fromtimestamp (86400 * (d1:ℚ))) n) = _
  rw [fromtimestamp_day_mul, h]
  simp [timestamp, h2]

theorem year_shift_concrete (d1 d2 : ℤ) (n : ℕ)
    (h : addYears ⟨(civilFromDays d1).1, (civilFromDays d1).2.1, (civilFromDays d1).2.2, 0⟩ (n:ℤ)
         = ⟨(civilFromDays d2).1, (civilFromDays d2).2.1, (civilFromDays d2).2.2, 0⟩)
    (h2 : daysFromCivil (civilFromDays d2).1 (civilFromDays d2).2.1 (civilFromDays d2).2.2 = d2) :
    applyPeriodDelta (.years n) (86400 * (d1:ℚ)) = 86400 * (d2:ℚ) := by
  show timestamp (addYears (fromtimestamp (86400 * (d1:ℚ))) n) = _
  rw [fromtimestamp_day_mul, h]
  simp [timestamp, h2]

/-- C3: for a completed requiring item whose period parses as N months
(or N years, N positive), the rescheduled due instant is the
calendar-relative operation (preserving the day-of-month when it fits in
the target month, clamping it otherwise, by the min in addMonths and
addYears, and advancing the month count by exactly N), not a fixed-length
offset: concretely, Jan 31 2025 (epoch day 20119) + 1 month lands on
Feb 28 2025 (day 20147) and not on the fixed 30-day instant Mar 2; Jan 31
2024 + 1 month lands on the leap day Feb 29 2024; Jan 31 2024 + 1 year
lands on Jan 31 2025 and not on the fixed 365-day instant Jan 30 2025. -/
theorem c3_calendar_month_year (now : ℚ) (it : TodoItem) (n : ℕ) (q : ℚ) :
    ((optBoolTruthy it.requiring = true → it.status = COMPLETED → 0 < n →
      _parse_period it.period = some (.months n) → it.due_datetime = some q → q ≠ 0 →
      (rescheduleItem now it).1.due_datetime
        = some (timestamp (addMonths (fromtimestamp q) n)))
    ∧ (optBoolTruthy it.requiring = true → it.status = COMPLETED → 0 < n →
      _parse_period it.period = some (.years n) → it.due_datetime = some q → q ≠ 0 →
      (rescheduleItem now it).1.due_datetime
        = some (timestamp (addYears (fromtimestamp q) n))))
    ∧ (∀ dt : CivilDateTime, ∀ k : ℤ,
        (12 * (addMonths dt k).year + ((addMonths dt k).month - 1)
            = 12 * dt.year + (dt.month - 1) + k)
        ∧ (addMonths dt k).day
            = min dt.day (daysInMonth (addMonths dt k).year (addMonths dt k).month)
        ∧ (addMonths dt k).secondOfDay = dt.secondOfDay
        ∧ (addYears dt k).year = dt.year + k
        ∧ (addYears dt k).month = dt.month
        ∧ (addYears dt k).day = min dt.day (daysInMonth (dt.year + k) dt.month)
        ∧ (addYears dt k).secondOfDay = dt.secondOfDay)
    ∧ (applyPeriodDelta (.months 1) (86400 * 20119) = 86400 * 20147
        ∧ fromtimestamp (86400 * 20119) = ⟨2025, 1, 31, 0⟩
        ∧ fromtimestamp (86400 * 20147) = ⟨2025, 2, 28, 0⟩
        ∧ applyPeriodDelta (.months 1) (86400 * 20119) ≠ 86400 * 20119 + 30 * 86400
        ∧ applyPeriodDelta (.months 1) (86400 * 19753) = 86400 * 19782
        ∧ fromtimestamp (86400 * 19753) = ⟨2024, 1, 31, 0⟩
        ∧ fromtimestamp (86400 * 19782) = ⟨2024, 2, 29, 0⟩
        ∧ applyPeriodDelta (.years 1) (86400 * 19753) = 86400 * 20119
        ∧ applyPeriodDelta (.years 1) (86400 * 19753) ≠ 86400 * 19753 + 365 * 86400) := by
  have hday : ∀ d : ℤ, ∀ y m dd : ℤ, civilFromDays d = (y, m, dd) →
      fromtimestamp (86400 * (d:ℚ)) = ⟨y, m, dd, 0⟩ := by
    intro d y m dd hc
    rw [show (86400 * (d:ℚ)) = 86400 * ((d:ℤ):ℚ) by norm_num, fromtimestamp_day_mul, hc]
  have hm2025 : applyPeriodDelta (.months 1) (86400 * ((20119:ℤ):ℚ)) = 86400 * ((20147:ℤ):ℚ) :=
    month_shift_concrete 20119 20147 1 (by decide) (by decide)
  have hm2024 : applyPeriodDelta (.months 1) (86400 * ((19753:ℤ):ℚ)) = 86400 * ((19782:ℤ):ℚ) :=
    month_shift_concrete 19753 19782 1 (by decide) (by decide)
  have hy2024 : applyPeriodDelta (.years 1) (86400 * ((19753:ℤ):ℚ)) = 86400 * ((20119:ℤ):ℚ) :=
    year_shift_concrete 19753 20119 1 (by decide) (by decide)
  refine ⟨⟨?_, ?_⟩, ?_, ?_⟩
  · intro hreq hs hn hp hdue hq
    have ht : periodDeltaTruthy (.months n) = true := by
      simp [periodDeltaTruthy]
      omega
    rw [rescheduleItem_fire now it _ hreq hs hp ht]
    simp [hdue, hq, applyPeriodDelta]
  · intro hreq hs hn hp hdue hq
    have ht : periodDeltaTruthy (.years n) = true := by
      simp [periodDeltaTruthy]
      omega
    rw [rescheduleItem_fire now it _ hreq hs hp ht]
    simp [hdue, hq, applyPeriodDelta]
  · intro dt k
    refine ⟨?_, rfl, rfl, rfl, rfl, rfl, rfl⟩
    simp only [addMonths]
    have hde : 12 * Int.ediv (12 * dt.year + (dt.month - 1) + k) 12
        + Int.emod (12 * dt.year + (dt.month - 1) + k) 12
        = 12 * dt.year + (dt.month - 1) + k := Int.ediv_add_emod _ 12
    omega
  · have e1 : applyPeriodDelta (.months 1) (86400 * (20119:ℚ)) = 86400 * 20147 := by
      rw [show (86400 * (20119:ℚ)) = 86400 * ((20119:ℤ):ℚ) by norm_num, hm2025]
      norm_num
    have e2 : applyPeriodDelta (.months 1) (86400 * (19753:ℚ)) = 86400 * 19782 := by
      rw [show (86400 * (19753:ℚ)) = 86400 * ((19753:ℤ):ℚ) by norm_num, hm2024]
      norm_num
    have e3 : applyPeriodDelta (.years 1) (86400 * (19753:ℚ)) = 86400 * 20119 := by
      rw [show (86400 * (19753:ℚ)) = 86400 * ((19753:ℤ):ℚ) by norm_num, hy2024]
      norm_num
    refine ⟨e1, hday 20119 2025 1 31 (by decide), hday 20147 2025 2 28 (by decide),
      ?_, e2, hday 19753 2024 1 31 (by decide), hday 19782 2024 2 29 (by decide), e3, ?_⟩
    · rw [e1]
      norm_num
    · rw [e3]
      norm_num

/-- Fixture completed recurring item with period "1month" due on epoch day
20119 (Jan 31 2025). -/
def itemM : TodoItem :=
  ⟨some "m", "mu", COMPLETED, none, some (86400 * 20119), none, some true, some "1month"⟩

/-- C3 witness: rescheduling itemM applies the calendar month shift. -/
theorem c3_calendar_month_year_witness :
    (rescheduleItem 0 itemM).1.due_datetime
      = some (timestamp (addMonths (fromtimestamp (86400 * 20119)) 1)) :=
  (c3_calendar_month_year 0 itemM 1 (86400 * 20119)).1.1 (by decide) rfl (by decide)
    (@parse_period_eval "1month" [Char.ofNat 49] "month" (by decide) (by decide) (by decide) (by decide))
    rfl (by norm_num)

/-! Sorted-order lemmas (C6). -/

/-- State reached by an operation that went through _save_and_refresh:
the item sequence is sorted, the persisted file holds exactly that
sequence, and the events are the save followed by the broadcast of the
same sequence. -/
def PostSaved (r : ListState × List Event) : Prop :=
  r.1.items.Sorted itemLE
  ∧ r.1.file = some ⟨r.1.display_name, r.1.items.map to_dict⟩
  ∧ r.2 = [Event.saved ⟨r.1.display_name, r.1.items.map to_dict⟩, Event.notified r.1.items]

theorem save_refresh_post (st : ListState) : PostSaved (_save_and_refresh st) :=
  ⟨sortItems_sorted st.items, rfl, rfl⟩

theorem rescheduleItem_noflag (now : ℚ) (it : TodoItem)
    (h : (rescheduleItem now it).2 = false) : (rescheduleItem now it).1 = it := by
  by_cases hrc : RecurringCompleted it
  · rw [(rescheduleItem_flag now it).mpr hrc] at h
    simp at h
  · rw [rescheduleItem_skip now it hrc]

theorem applyOp_sorted (st : ListState) (o : Op) (h : st.items.Sorted itemLE) :
    ((applyOp st o).1).items.Sorted itemLE := by
  cases o with
  | create it f =>
    show (async_create_todo_item st it f).1.items.Sorted itemLE
    unfold async_create_todo_item
    cases hc : createLoop st.items it with
    | some items2 => exact (save_refresh_post _).1
    | none => exact (save_refresh_post _).1
  | update it =>
    show (async_update_todo_item st it).1.items.Sorted itemLE
    unfold async_update_todo_item
    cases hc : updateLoop st.items it with
    | some items2 => exact (save_refresh_post _).1
    | none => exact h
  | delete uids => exact (save_refresh_post _).1
  | move u p =>
    show (async_move_todo_item st u p).state.items.Sorted itemLE
    unfold async_move_todo_item
    cases h1 : lastIdxWithUid st.items u with
    | none => exact h
    | some i =>
      by_cases h2 : optStrTruthy p = true
      · simp only [h2, if_true]
        cases h3 : lastIdxWithUid st.items (p.getD "") with
        | none => exact List.Pairwise.sublist (List.eraseIdx_sublist st.items i) h
        | some pi => exact (save_refresh_post _).1
      · have h2f : optStrTruthy p = false := by simpa using h2
        simp only [h2f, Bool.false_eq_true, if_false]
        exact (save_refresh_post _).1
  | reschedule now =>
    show (async_update_requiring_items st now).1.items.Sorted itemLE
    unfold async_update_requiring_items
    cases hu : st.items.any fun it => (rescheduleItem now it).2 with
    | true => exact (save_refresh_post _).1
    | false =>
      simp only [Bool.false_eq_true, if_false]
      have : (st.items.map fun it => (rescheduleItem now it).1) = st.items := by
        conv_rhs => rw [← List.map_id st.items]
        apply List.map_congr_left
        intro it hit
        have := (List.any_eq_false.mp hu) it hit
        rw [rescheduleItem_noflag now it (by simpa using this)]
        rfl
      rw [this]
      exact h

/-- C6: sortItems is a stable sort by due_datetime ascending with absent
due instants last (ties keep their prior relative order: any key-equal
pair in raw order survives into the sorted order); every mutating
operation that saves (create always, update when the target is found,
delete always, a successful move, a reschedule that changed an item) ends
with its in-memory sequence sorted, persists exactly that sequence and
broadcasts it after the save; and sortedness of the in-memory sequence is
preserved by arbitrary operation sequences. -/
theorem c6_sorted_after_mutations :
    (∀ l : List TodoItem, (sortItems l).Sorted itemLE)
    ∧ (∀ l : List TodoItem, List.Perm (sortItems l) l)
    ∧ (∀ a b : TodoItem, ∀ l : List TodoItem, sortKey a = sortKey b →
        List.Sublist [a, b] l → List.Sublist [a, b] (sortItems l))
    ∧ (∀ st it f, PostSaved (async_create_todo_item st it f))
    ∧ (∀ st it, updateLoop st.items it ≠ none → PostSaved (async_update_todo_item st it))
    ∧ (∀ st uids, PostSaved (async_delete_todo_items st uids))
    ∧ (∀ st u p, (async_move_todo_item st u p).error = none →
        PostSaved ((async_move_todo_item st u p).state, (async_move_todo_item st u p).events))
    ∧ (∀ st now, (st.items.any fun it => (rescheduleItem now it).2) = true →
        PostSaved (async_update_requiring_items st now))
    ∧ (∀ st ops, st.items.Sorted itemLE → (runOps st ops).items.Sorted itemLE) := by
  refine ⟨sortItems_sorted, sortItems_perm, ?_, ?_, ?_, ?_, ?_, ?_, ?_⟩
  · intro a b l hk hsub
    exact sortItems_stable (le_of_eq hk) hsub
  · intro st it f
    unfold async_create_todo_item
    cases hc : createLoop st.items it with
    | some items2 => exact save_refresh_post _
    | none => exact save_refresh_post _
  · intro st it hne
    unfold async_update_todo_item
    cases hc : updateLoop st.items it with
    | some items2 => exact save_refresh_post _
    | none => exact absurd hc hne
  · intro st uids
    exact save_refresh_post _
  · intro st u p herr
    unfold async_move_todo_item at herr ⊢
    cases h1 : lastIdxWithUid st.items u with
    | none =>
      simp only [h1] at herr
      exact absurd herr (by simp)
    | some i =>
      by_cases h2 : optStrTruthy p = true
      · simp only [h1, h2, if_true] at herr ⊢
        cases h3 : lastIdxWithUid st.items (p.getD "") with
        | none =>
          simp only [h3] at herr
          exact absurd herr (by simp)
        | some pi =>
          simp only [h3] at herr ⊢
          exact save_refresh_post _
      · have h2f : optStrTruthy p = false := by simpa using h2
        simp only [h1, h2f, Bool.false_eq_true, if_false] at herr ⊢
        exact save_refresh_post _
  · intro st now hu
    unfold async_update_requiring_items
    rw [hu]
    exact save_refresh_post _
  · intro st ops
    induction ops generalizing st with
    | nil => exact fun h => h
    | cons o rest ih => exact fun h => ih _ (applyOp_sorted st o h)

/-- C6 witness: a found update on the fixture state ends saved, sorted
and broadcast. -/
theorem c6_sorted_after_mutations_witness :
    PostSaved (async_update_todo_item stC1
      ⟨some "a", "alpha", COMPLETED, none, none, none, none, none⟩) :=
  c6_sorted_after_mutations.2.2.2.2.1 stC1
    ⟨some "a", "alpha", COMPLETED, none, none, none, none, none⟩ (by decide)

/-! Read-back lemmas (C7). -/

/-- Reading the persisted file back yields exactly the in-memory item
sequence (vacuous when nothing has been persisted yet). -/
def ReadBack (st : ListState) : Prop :=
  ∀ f, st.file = some f → loadedItems f = st.items

theorem save_refresh_readback (st : ListState) : ReadBack (_save_and_refresh st).1 := by
  intro f hf
  simp only [_save_and_refresh, Option.some.injEq] at hf
  subst hf
  exact loadedItems_saved _ _

/-- Every operation either routes its result through _save_and_refresh,
or leaves the state untouched with no events, or raises with no events. -/
theorem applyOp_shape (st : ListState) (o : Op) :
    (∃ X : ListState, (applyOp st o).1 = (_save_and_refresh X).1
        ∧ (applyOp st o).2.1 = (_save_and_refresh X).2)
    ∨ ((applyOp st o).1 = st ∧ (applyOp st o).2.1 = [])
    ∨ ((applyOp st o).2.2 ≠ none ∧ (applyOp st o).2.1 = []) := by
  cases o with
  | create it f =>
    cases hc : createLoop st.items it with
    | some items2 =>
      simp only [applyOp, async_create_todo_item, hc]
      exact Or.inl ⟨_, rfl, rfl⟩
    | none =>
      simp only [applyOp, async_create_todo_item, hc]
      exact Or.inl ⟨_, rfl, rfl⟩
  | update it =>
    cases hc : updateLoop st.items it with
    | some items2 =>
      simp only [applyOp, async_update_todo_item, hc]
      exact Or.inl ⟨_, rfl, rfl⟩
    | none =>
      simp [applyOp, async_update_todo_item, hc]
  | delete uids =>
    simp only [applyOp, async_delete_todo_items]
    exact Or.inl ⟨_, rfl, rfl⟩
  | move u p =>
    cases h1 : lastIdxWithUid st.items u with
    | none =>
      simp only [applyOp, async_move_todo_item, h1]
      exact Or.inr (Or.inr ⟨by simp, trivial⟩)
    | some i =>
      by_cases h2 : optStrTruthy p = true
      · cases h3 : lastIdxWithUid st.items (p.getD "") with
        | none =>
          simp only [applyOp, async_move_todo_item, h1, h2, if_true, h3]
          exact Or.inr (Or.inr ⟨by simp, trivial⟩)
        | some pi =>
          simp only [applyOp, async_move_todo_item, h1, h2, if_true, h3]
          exact Or.inl ⟨_, rfl, rfl⟩
      · have h2f : optStrTruthy p = false := by simpa using h2
        simp only [applyOp, async_move_todo_item, h1, h2f, Bool.false_eq_true, if_false]
        exact Or.inl ⟨_, rfl, rfl⟩
  | reschedule now =>
    cases hu : st.items.any fun it => (rescheduleItem now it).2 with
    | true =>
      simp only [applyOp, async_update_requiring_items, hu, if_true]
      exact Or.inl ⟨_, rfl, rfl⟩
    | false =>
      simp only [applyOp, async_update_requiring_items, hu, Bool.false_eq_true, if_false]
      refine Or.inr (Or.inl ⟨?_, trivial⟩)
      have hmap : (st.items.map fun it => (rescheduleItem now it).1) = st.items := by
        conv_rhs => rw [← List.map_id st.items]
        apply List.map_congr_left
        intro it hit
        have hflag := (List.any_eq_false.mp hu) it hit
        rw [rescheduleItem_noflag now it (by simpa using hflag)]
        rfl
      rw [hmap]

/-- C7: a ReadBack state (in-memory sequence equal to the parse of its
persisted file) is preserved by every operation that completes without
raising, hence by every raise-free operation sequence; moreover every
operation either emits no events at all or emits exactly one save
followed by one notification, the save carrying a file whose read-back is
exactly the in-memory sequence being broadcast (so no notification ever
reflects unsaved state). -/
theorem c7_read_back_equality :
    (∀ st o, (applyOp st o).2.2 = none → ReadBack st → ReadBack (applyOp st o).1)
    ∧ (∀ st ops, ReadBack st → opsOk st ops → ReadBack (runOps st ops))
    ∧ (∀ st o, (applyOp st o).2.1 = []
        ∨ ∃ f, (applyOp st o).2.1 = [Event.saved f, Event.notified (applyOp st o).1.items]
            ∧ loadedItems f = (applyOp st o).1.items) := by
  have hstep : ∀ st o, (applyOp st o).2.2 = none → ReadBack st → ReadBack (applyOp st o).1 := by
    intro st o herr h
    rcases applyOp_shape st o with ⟨X, hst, _⟩ | ⟨hst, _⟩ | ⟨hraise, _⟩
    · rw [hst]
      exact save_refresh_readback X
    · rw [hst]
      exact h
    · exact absurd herr hraise
  refine ⟨hstep, ?_, ?_⟩
  · intro st ops
    induction ops generalizing st with
    | nil => exact fun h _ => h
    | cons o rest ih =>
      intro h hok
      exact ih _ (hstep st o hok.1 h) hok.2
  · intro st o
    rcases applyOp_shape st o with ⟨X, hst, hev⟩ | ⟨_, hev⟩ | ⟨_, hev⟩
    · refine Or.inr ⟨⟨X.display_name, (sortItems X.items).map to_dict⟩, ?_, ?_⟩
      · rw [hev, hst]
        rfl
      · rw [hst]
        exact loadedItems_saved _ _
    · exact Or.inl hev
    · exact Or.inl hev

/-- C7 witness: starting from the empty fixture state (vacuously
read-back consistent, nothing persisted yet), creating itemC leaves a
state whose persisted file reads back to the in-memory sequence. -/
theorem c7_read_back_equality_witness :
    ReadBack (runOps stEmpty [Op.create itemC "f"]) :=
  c7_read_back_equality.2.1 stEmpty [Op.create itemC "f"]
    (by intro f hf; simp [stEmpty] at hf) ⟨rfl, trivial⟩

/-! Uid-uniqueness lemmas (C8). -/

/-- Item uid values are pairwise distinct within the list. -/
def UidsNodup (st : ListState) : Prop :=
  (st.items.map fun it => it.uid).Nodup

/-- Proviso under which an operation preserves uid uniqueness: a created
item's effective uid (its own non-empty uid, or the supplied fresh uuid)
is not already present, and an updated item targets by a non-empty uid. -/
def OpSafe (st : ListState) : Op → Prop
  | .create it f =>
    (if optStrTruthy it.uid = true then it.uid else some f) ∉ st.items.map fun x => x.uid
  | .update it => optStrTruthy it.uid = true
  | .delete _ => True
  | .move _ _ => True
  | .reschedule _ => True

/-- The proviso along a whole operation sequence. -/
def SafeOps (st : ListState) : List Op → Prop
  | [] => True
  | o :: rest => OpSafe st o ∧ SafeOps (applyOp st o).1 rest

theorem sortItems_map_uid_nodup {l : List TodoItem}
    (h : (l.map fun it => it.uid).Nodup) : ((sortItems l).map fun it => it.uid).Nodup :=
  (((sortItems_perm l).map fun it => it.uid).nodup_iff).mpr h

theorem getD_cons_eraseIdx_perm :
    ∀ (l : List TodoItem) (i : ℕ), i < l.length →
      List.Perm l (l.getD i dummyItem :: l.eraseIdx i)
  | [], i, h => absurd h (by simp)
  | a :: t, 0, _ => by simp [List.getD]
  | a :: t, i + 1, h => by
    have ih := getD_cons_eraseIdx_perm t i (by simpa using h)
    show List.Perm (a :: t) (t.getD i dummyItem :: a :: t.eraseIdx i)
    exact (ih.cons a).trans (List.Perm.swap (t.getD i dummyItem) a (t.eraseIdx i))

theorem lastIdxWithUid_lt {l : List TodoItem} {u : String} {i : ℕ}
    (h : lastIdxWithUid l u = some i) : i < l.length := by
  unfold lastIdxWithUid at h
  cases hf : l.reverse.findIdx? fun it => it.uid == some u with
  | none => rw [hf] at h; exact absurd h (by simp)
  | some j =>
    rw [hf] at h
    injection h with h
    subst h
    have hlen : l.reverse ≠ [] := by
      intro he
      rw [he] at hf
      simp [List.findIdx?] at hf
    have hpos : 0 < l.length := by
      cases l with
      | nil => simp at hlen
      | cons a t => simp
    omega

theorem applyOp_uids (st : ListState) (o : Op) (h : UidsNodup st) (hs : OpSafe st o) :
    UidsNodup (applyOp st o).1 := by
  cases o with
  | create it f =>
    cases hc : createLoop st.items it with
    | some items2 =>
      simp only [applyOp, async_create_todo_item, hc, _save_and_refresh]
      show ((sortItems items2).map fun x => x.uid).Nodup
      apply sortItems_map_uid_nodup
      rw [createLoop_map_uid hc]
      exact h
    | none =>
      simp only [applyOp, async_create_todo_item, hc, _save_and_refresh]
      show ((sortItems (st.items ++
          [if optStrTruthy it.uid = true then it else { it with uid := some f }])).map
            fun x => x.uid).Nodup
      apply sortItems_map_uid_nodup
      rw [List.map_append]
      refine List.Nodup.append h (List.nodup_singleton _) ?_
      have huid : (if optStrTruthy it.uid = true then it else { it with uid := some f }).uid
          = (if optStrTruthy it.uid = true then it.uid else some f) := by
        by_cases h2 : optStrTruthy it.uid = true <;> simp [h2]
      intro a ha hb
      simp only [List.map_cons, List.map_nil, List.mem_cons, List.not_mem_nil, or_false] at hb
      rw [hb, huid] at ha
      exact hs ha
  | update it =>
    cases hc : updateLoop st.items it with
    | some items2 =>
      simp only [applyOp, async_update_todo_item, hc, _save_and_refresh]
      show ((sortItems items2).map fun x => x.uid).Nodup
      apply sortItems_map_uid_nodup
      rw [updateLoop_map_uid hs hc]
      exact h
    | none =>
      simp only [applyOp, async_update_todo_item, hc]
      exact h
  | delete uids =>
    simp only [applyOp, async_delete_todo_items, _save_and_refresh]
    apply sortItems_map_uid_nodup
    exact List.Nodup.sublist
      (List.Sublist.map (fun it : TodoItem => it.uid) (List.filter_sublist st.items)) h
  | move u p =>
    cases h1 : lastIdxWithUid st.items u with
    | none =>
      simp only [applyOp, async_move_todo_item, h1]
      exact h
    | some i =>
      have hi := lastIdxWithUid_lt h1
      have hperm0 := getD_cons_eraseIdx_perm st.items i hi
      have hbase : (st.items.map fun it : TodoItem => it.uid).Nodup := h
      have herase : ((st.items.eraseIdx i).map fun x => x.uid).Nodup :=
        List.Nodup.sublist
          (List.Sublist.map (fun it : TodoItem => it.uid) (List.eraseIdx_sublist st.items i)) hbase
      have hins : ∀ k : ℕ,
          (((st.items.eraseIdx i).insertIdx k (st.items.getD i dummyItem)).map
            fun x => x.uid).Nodup := by
        intro k
        rcases insertIdx_perm_or_eq (st.items.getD i dummyItem) k (st.items.eraseIdx i) with
          hq | heq
        · exact ((List.Perm.map (fun it : TodoItem => it.uid) hq).nodup_iff).mpr
            (((List.Perm.map (fun it : TodoItem => it.uid) hperm0).nodup_iff).mp hbase)
        · rw [heq]
          exact herase
      by_cases h2 : optStrTruthy p = true
      · cases h3 : lastIdxWithUid st.items (p.getD "") with
        | none =>
          simp only [applyOp, async_move_todo_item, h1, h2, if_true, h3]
          exact herase
        | some pi =>
          simp only [applyOp, async_move_todo_item, h1, h2, if_true, h3, _save_and_refresh]
          exact sortItems_map_uid_nodup (hins _)
      · have h2f : optStrTruthy p = false := by simpa using h2
        simp only [applyOp, async_move_todo_item, h1, h2f, Bool.false_eq_true, if_false,
          _save_and_refresh]
        exact sortItems_map_uid_nodup (hins 0)
  | reschedule now =>
    have hmapuid : ((st.items.map fun it => (rescheduleItem now it).1).map fun x => x.uid)
        = st.items.map fun x => x.uid := by
      rw [List.map_map]
      apply List.map_congr_left
      intro it hit
      exact rescheduleItem_uid now it
    cases hu : st.items.any fun it => (rescheduleItem now it).2 with
    | true =>
      simp only [applyOp, async_update_requiring_items, hu, if_true, _save_and_refresh]
      apply sortItems_map_uid_nodup
      rw [hmapuid]
      exact h
    | false =>
      simp only [applyOp, async_update_requiring_items, hu, Bool.false_eq_true, if_false]
      show ((st.items.map fun it => (rescheduleItem now it).1).map fun x => x.uid).Nodup
      rw [hmapuid]
      exact h

/-- Fixture item that duplicates a caller-supplied uid "u". -/
def itemU1 : TodoItem := ⟨some "u", "a", NEEDS_ACTION, none, none, none, none, none⟩

/-- Fixture second item carrying the same caller-supplied uid "u". -/
def itemU2 : TodoItem := ⟨some "u", "b", NEEDS_ACTION, none, none, none, none, none⟩

/-- C8 counterexample: starting from the empty list, two create_item
calls whose items carry the same caller-supplied uid "u" (and different
summaries) leave two items with uid "u": the uid values are no longer
pairwise distinct. -/
theorem c8_counterexample_duplicate_uid :
    ¬ ((runOps stEmpty [Op.create itemU1 "f1", Op.create itemU2 "f2"]).items.map
        fun it => it.uid).Nodup := by
  decide

/-- C8 amended: uid values remain pairwise distinct after every operation
and every operation sequence, provided each created item's effective uid
(its own non-empty uid, or otherwise the generated uuid) is not already
present in the list and each updated item targets by a non-empty uid
(delete, move and reschedule need no proviso). -/
theorem c8_amended_unique_uids :
    (∀ st o, UidsNodup st → OpSafe st o → UidsNodup (applyOp st o).1)
    ∧ (∀ st ops, UidsNodup st → SafeOps st ops → UidsNodup (runOps st ops)) := by
  refine ⟨applyOp_uids, ?_⟩
  intro st ops
  induction ops generalizing st with
  | nil => exact fun h _ => h
  | cons o rest ih =>
    intro h hsafe
    exact ih _ (applyOp_uids st o h hsafe.1) hsafe.2

/-- C8 witness: a single create on the empty list under the proviso
keeps the uids pairwise distinct. -/
theorem c8_amended_unique_uids_witness :
    UidsNodup (applyOp stEmpty (Op.create itemU1 "f1")).1 :=
  c8_amended_unique_uids.1 stEmpty (Op.create itemU1 "f1")
    (by simp [UidsNodup, stEmpty]) (by simp [OpSafe, stEmpty])

end SbTodo
